import Mathlib

/-!
Verification of the caching / data-freshness layer and the adaptive playback
retry logic of the IPTV client repository.

The development shallowly embeds, from the TypeScript source:

* the `OptimizedXtreamAPI` caching engine (`fetchWithCache`, `getFromCache`,
  `saveToCache`, `getCacheKey`, `clearCache`);
* the playback source resolver (`getOptimalMovieStreamingUrl`,
  `getPreferredStreamFormat`, `getVodStreamingUrl`);
* the video player's format-retry logic (`retryWithDifferentFormat`,
  `handleError`, the load-timeout effect);
* a small-step interleaving model of overlapping `fetchWithCache` calls on a
  single key, with the abort-controller registry.

Cached payloads are abstracted as natural numbers; times are naturals in
milliseconds.  Storage I/O failures are modelled by explicit success flags.
-/

namespace PlayerToo

/-- A cache entry as built by `saveToCache` in the source:
`{ data, timestamp: Date.now(), expiresAt: Date.now() + duration }`. -/
structure CacheEntry where
  data : Nat
  timestamp : Nat
  expiresAt : Nat
  deriving DecidableEq

/-- `getFromCache` (part_009 lines 91-108): reads the stored entry; any I/O
failure (`getOk = false`) is caught and yields `null`; a present entry is
returned together with its validity flag `expiresAt > Date.now()`. -/
def getFromCache (store : Option CacheEntry) (getOk : Bool) (now : Nat) :
    Option (Nat × Bool) :=
  if getOk then
    match store with
    | none => none
    | some e => some (e.data, decide (now < e.expiresAt))
  else none

/-- `saveToCache` (part_009 lines 76-88): writes
`{ data, timestamp: now, expiresAt: now + duration }`; any I/O failure
(`setOk = false`) is caught and swallowed, leaving the store unchanged. -/
def saveToCache (store : Option CacheEntry) (setOk : Bool) (now dur v : Nat) :
    Option CacheEntry :=
  if setOk then some ⟨v, now, now + dur⟩ else store

/-- Result of one sequential `fetchWithCache` call: the value returned to the
caller (or the propagated error), the store after the call, and whether the
network fetch operation was invoked. -/
structure FetchOutcome where
  result : Except Unit Nat
  store : Option CacheEntry
  networkUsed : Bool

/-- `fetchWithCache` (part_009 lines 111-155), single sequential call on one
key.  `fetchRes` is the outcome of `optimizedFetch` when it is invoked.
Control flow from the source: a fresh cached entry is returned with no
network access; otherwise the fetch runs; on success the response is cached
and returned; on failure a remembered (stale) cached value is returned if one
existed, else the error propagates. -/
def fetchWithCache (store : Option CacheEntry) (getOk setOk : Bool)
    (now dur : Nat) (fetchRes : Except Unit Nat) : FetchOutcome :=
  match getFromCache store getOk now with
  | some (d, true) => ⟨Except.ok d, store, false⟩
  | cached =>
    match fetchRes with
    | Except.ok v => ⟨Except.ok v, saveToCache store setOk now dur v, true⟩
    | Except.error e =>
      match cached with
      | some (d, _) => ⟨Except.ok d, store, true⟩
      | none => ⟨Except.error e, store, true⟩

/-- `getCacheKey` (part_009 lines 71-73) and the hook's `getCacheKey`
(useCachedData.ts lines 16-21): builds
`cache:{username}@{baseUrl}:{key}`. -/
def getCacheKey (username baseUrl key : String) : String :=
  "cache:" ++ username ++ "@" ++ baseUrl ++ ":" ++ key

/-- The per-identity namespace string `cache:{username}@{baseUrl}:` used by
`clearCache` (part_009 line 318) as its filter. -/
def identityNs (username baseUrl : String) : String :=
  "cache:" ++ username ++ "@" ++ baseUrl ++ ":"

/-- C1: Freshness.  (a) If a cache entry exists (and the storage read
succeeds) and the current time is strictly before its `expiresAt`,
`fetchWithCache` returns the stored value and never invokes the network
fetch.  (b) Whenever the network fetch was invoked and succeeded (with the
cache write succeeding), the stored entry has `expiresAt = now + dur`.
(c) A later call strictly before `now + dur` reads that entry from cache with
no network call; a call at or after `now + dur` invokes the network. -/
theorem fetchWithCache_freshness :
    (∀ (e : CacheEntry) (setOk : Bool) (now dur : Nat) (fr : Except Unit Nat),
      now < e.expiresAt →
      fetchWithCache (some e) true setOk now dur fr =
        ⟨Except.ok e.data, some e, false⟩) ∧
    (∀ (store : Option CacheEntry) (getOk : Bool) (now dur v : Nat),
      (fetchWithCache store getOk true now dur (Except.ok v)).networkUsed = true →
      (fetchWithCache store getOk true now dur (Except.ok v)).store =
        some ⟨v, now, now + dur⟩) ∧
    (∀ (v now dur now2 dur2 : Nat) (setOk2 : Bool) (fr2 : Except Unit Nat),
      (now2 < now + dur →
        fetchWithCache (some ⟨v, now, now + dur⟩) true setOk2 now2 dur2 fr2 =
          ⟨Except.ok v, some ⟨v, now, now + dur⟩, false⟩) ∧
      (now + dur ≤ now2 →
        (fetchWithCache (some ⟨v, now, now + dur⟩) true setOk2 now2 dur2 fr2).networkUsed
          = true)) := by
  refine ⟨?_, ?_, ?_⟩
  · intro e setOk now dur fr h
    simp [fetchWithCache, getFromCache, h]
  · intro store getOk now dur v hnet
    cases getOk with
    | false => simp [fetchWithCache, getFromCache, saveToCache]
    | true =>
      cases store with
      | none => simp [fetchWithCache, getFromCache, saveToCache]
      | some e =>
        by_cases h : now < e.expiresAt
        · simp [fetchWithCache, getFromCache, h] at hnet
        · simp [fetchWithCache, getFromCache, saveToCache, h]
  · intro v now dur now2 dur2 setOk2 fr2
    constructor
    · intro h
      simp [fetchWithCache, getFromCache, h]
    · intro h
      have h' : ¬ now2 < now + dur := not_lt.mpr h
      cases fr2 <;> simp [fetchWithCache, getFromCache, saveToCache, h']

/-- Witness for C1 at concrete inputs. -/
theorem fetchWithCache_freshness_witness :
    fetchWithCache (some ⟨7, 0, 10⟩) true true 5 3 (Except.error ()) =
      ⟨Except.ok 7, some ⟨7, 0, 10⟩, false⟩ ∧
    (fetchWithCache none true true 0 30 (Except.ok 4)).store = some ⟨4, 0, 30⟩ ∧
    fetchWithCache (some ⟨4, 0, 0 + 30⟩) true true 10 9 (Except.error ()) =
      ⟨Except.ok 4, some ⟨4, 0, 0 + 30⟩, false⟩ ∧
    (fetchWithCache (some ⟨4, 0, 0 + 30⟩) true true 31 9 (Except.ok 5)).networkUsed
      = true := by
  refine ⟨fetchWithCache_freshness.1 ⟨7, 0, 10⟩ true 5 3 (Except.error ()) (by decide),
    ?_, (fetchWithCache_freshness.2.2 4 0 30 10 9 true (Except.error ())).1 (by decide),
    (fetchWithCache_freshness.2.2 4 0 30 31 9 true (Except.ok 5)).2 (by decide)⟩
  have := fetchWithCache_freshness.2.1 none true 0 30 4 (by rfl)
  simpa using this

/-- C4: Stale fallback.  If the network fetch fails and a (stale) cache entry
exists (and is readable), `fetchWithCache` returns the stale entry's value
instead of propagating the error; if the fetch fails and no entry exists, the
failure is propagated to the caller. -/
theorem fetchWithCache_stale_fallback :
    (∀ (e : CacheEntry) (setOk : Bool) (now dur : Nat),
      e.expiresAt ≤ now →
      fetchWithCache (some e) true setOk now dur (Except.error ()) =
        ⟨Except.ok e.data, some e, true⟩) ∧
    (∀ (setOk : Bool) (now dur : Nat),
      fetchWithCache none true setOk now dur (Except.error ()) =
        ⟨Except.error (), none, true⟩) := by
  constructor
  · intro e setOk now dur h
    have h' : ¬ now < e.expiresAt := not_lt.mpr h
    simp [fetchWithCache, getFromCache, h']
  · intro setOk now dur
    simp [fetchWithCache, getFromCache]

/-- Witness for C4 at concrete inputs. -/
theorem fetchWithCache_stale_fallback_witness :
    fetchWithCache (some ⟨9, 0, 10⟩) true true 10 3 (Except.error ()) =
      ⟨Except.ok 9, some ⟨9, 0, 10⟩, true⟩ ∧
    fetchWithCache none true true 10 3 (Except.error ()) =
      ⟨Except.error (), none, true⟩ :=
  ⟨fetchWithCache_stale_fallback.1 ⟨9, 0, 10⟩ true 10 3 (by decide),
   fetchWithCache_stale_fallback.2 true 10 3⟩

/-- C9: Fail-open storage.  A failing cache read is treated exactly as a
cache miss: the network fetch proceeds and its outcome is handed to the
caller.  A failing cache write is swallowed: the returned result and the
network-use flag are identical to those of a run whose write succeeds. -/
theorem cache_fail_open :
    (∀ (store : Option CacheEntry) (setOk : Bool) (now dur : Nat)
        (fr : Except Unit Nat),
      (fetchWithCache store false setOk now dur fr).networkUsed = true ∧
      (fetchWithCache store false setOk now dur fr).result = fr) ∧
    (∀ (store : Option CacheEntry) (getOk : Bool) (now dur : Nat)
        (fr : Except Unit Nat),
      (fetchWithCache store getOk false now dur fr).result =
        (fetchWithCache store getOk true now dur fr).result ∧
      (fetchWithCache store getOk false now dur fr).networkUsed =
        (fetchWithCache store getOk true now dur fr).networkUsed) := by
  constructor
  · intro store setOk now dur fr
    cases fr <;> simp [fetchWithCache, getFromCache, saveToCache]
  · intro store getOk now dur fr
    cases getOk with
    | false => cases fr <;> simp [fetchWithCache, getFromCache, saveToCache]
    | true =>
      cases store with
      | none => cases fr <;> simp [fetchWithCache, getFromCache, saveToCache]
      | some e =>
        by_cases h : now < e.expiresAt <;>
          cases fr <;> simp [fetchWithCache, getFromCache, saveToCache, h]

/-- Splitting at a separator character is unambiguous when neither left part
contains the separator. -/
theorem append_sep_inj (c : Char) (u1 u2 t1 t2 : List Char)
    (h1 : c ∉ u1) (h2 : c ∉ u2)
    (h : u1 ++ c :: t1 = u2 ++ c :: t2) : u1 = u2 ∧ t1 = t2 := by
  induction u1 generalizing u2 with
  | nil =>
    cases u2 with
    | nil => simpa using h
    | cons d u2' =>
      simp only [List.nil_append, List.cons_append, List.cons.injEq] at h
      exact absurd (h.1 ▸ List.mem_cons_self d u2') h2
  | cons d u1' ih =>
    cases u2 with
    | nil =>
      simp only [List.nil_append, List.cons_append, List.cons.injEq] at h
      exact absurd (h.1.symm ▸ List.mem_cons_self d u1') h1
    | cons d' u2' =>
      simp only [List.cons_append, List.cons.injEq] at h
      have h1' : c ∉ u1' := fun hm => h1 (List.mem_cons_of_mem d hm)
      have h2' : c ∉ u2' := fun hm => h2 (List.mem_cons_of_mem d' hm)
      obtain ⟨hu, ht⟩ := ih u2' h1' h2' h.2
      exact ⟨by rw [h.1, hu], ht⟩

/-- C3 counterexample: the identity pairs (`a@b`, `c`) and (`a`, `b@c`) are
distinct, yet `getCacheKey` derives the same cache-key string from both for
the logical resource name `live_categories`. -/
theorem getCacheKey_collision :
    getCacheKey "a@b" "c" "live_categories" =
      getCacheKey "a" "b@c" "live_categories" ∧
    (("a@b", "c") : String × String) ≠ ("a", "b@c") := by
  constructor
  · rfl
  · decide

/-- C3 amended: `getCacheKey` is injective on `(username, baseUrl)` pairs for
each fixed logical key, provided neither username contains the separator
character `@`. -/
theorem getCacheKey_inj (u1 b1 u2 b2 k : String)
    (h1 : ('@') ∉ u1.data) (h2 : ('@') ∉ u2.data)
    (h : getCacheKey u1 b1 k = getCacheKey u2 b2 k) : u1 = u2 ∧ b1 = b2 := by
  have hd := congrArg String.data h
  simp only [getCacheKey, String.data_append] at hd
  simp only [List.append_assoc, List.singleton_append] at hd
  have hd' := List.append_cancel_left hd
  obtain ⟨hu, ht⟩ :=
    append_sep_inj ('@') u1.data u2.data _ _ h1 h2 hd'
  have hb := List.append_cancel_right ht
  exact ⟨String.ext hu, String.ext hb⟩

/-- Witness for C3 amended at concrete `@`-free usernames. -/
theorem getCacheKey_inj_witness :
    ("alice" : String) = "alice" ∧ ("http://h" : String) = "http://h" :=
  getCacheKey_inj "alice" "http://h" "alice" "http://h" "live_categories"
    (by decide) (by decide) rfl

/-- Character-list prefix test: `charsStart p s` holds when `p` is a prefix
of `s`. -/
def charsStart : List Char → List Char → Bool
  | [], _ => true
  | _ :: _, [] => false
  | c :: p', d :: s' => decide (c = d) && charsStart p' s'

/-- String prefix test, modelling JavaScript `String.prototype.startsWith`:
`strStartsWith s p` holds when `s` starts with `p`. -/
def strStartsWith (s p : String) : Bool := charsStart p.data s.data

/-- Character-list infix test. -/
def charsInfix : List Char → List Char → Bool
  | sub, [] => sub.isEmpty
  | sub, d :: s' => charsStart sub (d :: s') || charsInfix sub s'

/-- Substring test, modelling JavaScript `String.prototype.includes`. -/
def strIncludes (s sub : String) : Bool := charsInfix sub.data s.data

/-- The four argument values accepted by `clearCache`. -/
inductive ClearType
  | all
  | live
  | vod
  | series
  deriving DecidableEq

/-- `clearCache` (part_009 lines 315-348): the list `keysToRemove` computed
from all stored keys, the active identity's namespace, and the clear type.
Each branch filters on the active namespace and, for typed clears, on
substring membership exactly as in the source. -/
def clearCacheTargets (keys : List String) (username baseUrl : String) :
    ClearType → List String
  | ClearType.all =>
    keys.filter (fun k => strStartsWith k (identityNs username baseUrl))
  | ClearType.live =>
    keys.filter (fun k => strStartsWith k (identityNs username baseUrl) &&
      (strIncludes k "live_categories" || strIncludes k "live_streams"))
  | ClearType.vod =>
    keys.filter (fun k => strStartsWith k (identityNs username baseUrl) &&
      (strIncludes k "vod_categories" || strIncludes k "vod_streams" ||
        strIncludes k "vod_info"))
  | ClearType.series =>
    keys.filter (fun k => strStartsWith k (identityNs username baseUrl) &&
      (strIncludes k "series_categories" || strIncludes k "series_cat_" ||
        strIncludes k "series_info" || strIncludes k "series_all"))

/-- C10 counterexample: with active identity (`a`, `b@c`), `clearCache` with
type `all` removes the key written by the distinct identity (`a@b`, `c`) for
the logical name `live_categories`, so another identity's entry is not left
unchanged. -/
theorem clearCache_removes_other_identity :
    clearCacheTargets [getCacheKey "a@b" "c" "live_categories"] "a" "b@c"
        ClearType.all = [getCacheKey "a@b" "c" "live_categories"] ∧
    (("a", "b@c") : String × String) ≠ ("a@b", "c") := by
  constructor
  · decide
  · decide

/-- C10 amended: for every clear type, `clearCache` removes only keys that
start with the active identity's namespace string
`cache:{username}@{baseUrl}:`; every stored key that does not carry that
namespace as a string-prefix is left unchanged.  (Keys of a *different*
identity may still carry that namespace — see the counterexample.) -/
theorem clearCache_frame (keys : List String) (u b : String) (t : ClearType)
    (k : String) :
    (k ∈ clearCacheTargets keys u b t → strStartsWith k (identityNs u b) = true) ∧
    (strStartsWith k (identityNs u b) = false →
      k ∉ clearCacheTargets keys u b t) := by
  have h1 : k ∈ clearCacheTargets keys u b t →
      strStartsWith k (identityNs u b) = true := by
    intro hk
    cases t with
    | all =>
      simp only [clearCacheTargets, List.mem_filter] at hk
      exact hk.2
    | live =>
      simp only [clearCacheTargets, List.mem_filter, Bool.and_eq_true] at hk
      exact hk.2.1
    | vod =>
      simp only [clearCacheTargets, List.mem_filter, Bool.and_eq_true] at hk
      exact hk.2.1
    | series =>
      simp only [clearCacheTargets, List.mem_filter, Bool.and_eq_true] at hk
      exact hk.2.1
  refine ⟨h1, fun hfalse hk => ?_⟩
  rw [h1 hk] at hfalse
  cases hfalse

/-- Witness for C10 amended at concrete inputs. -/
theorem clearCache_frame_witness :
    ("cache:bob@h:x" : String) ∉
      clearCacheTargets ["cache:bob@h:x"] "alice" "h" ClearType.all :=
  (clearCache_frame ["cache:bob@h:x"] "alice" "h" ClearType.all
    "cache:bob@h:x").2 (by decide)

/-- The three container formats handled by the player and the API
(`'m3u8' | 'mp4' | 'ts'`). -/
inductive StreamFormat
  | m3u8
  | mp4
  | ts
  deriving DecidableEq, Fintype

/-- Container extension string of a format. -/
def formatExt : StreamFormat → String
  | StreamFormat.m3u8 => "m3u8"
  | StreamFormat.mp4 => "mp4"
  | StreamFormat.ts => "ts"

/-- The fixed format sequence of `retryWithDifferentFormat` (part_000 line
85): `['m3u8', 'mp4', 'ts']`. -/
def formats : List StreamFormat :=
  [StreamFormat.m3u8, StreamFormat.mp4, StreamFormat.ts]

/-- The format advancement of `retryWithDifferentFormat` (part_000 lines
86-87): `formats[(formats.indexOf(currentFormat) + 1) % formats.length]`. -/
def nextFormat (cur : StreamFormat) : StreamFormat :=
  formats.getD ((formats.indexOf cur + 1) % formats.length) StreamFormat.m3u8

/-- C8: Cyclic format order.  Starting from any current format, three
consecutive advancements return to the starting format, and the three formats
visited in between are pairwise distinct and exhaust the whole sequence, so
each format is visited exactly once per cycle. -/
theorem nextFormat_cyclic :
    ∀ f : StreamFormat,
      nextFormat (nextFormat (nextFormat f)) = f ∧
      StreamFormat.m3u8 ∈ [nextFormat f, nextFormat (nextFormat f),
        nextFormat (nextFormat (nextFormat f))] ∧
      StreamFormat.mp4 ∈ [nextFormat f, nextFormat (nextFormat f),
        nextFormat (nextFormat (nextFormat f))] ∧
      StreamFormat.ts ∈ [nextFormat f, nextFormat (nextFormat f),
        nextFormat (nextFormat (nextFormat f))] ∧
      [nextFormat f, nextFormat (nextFormat f),
        nextFormat (nextFormat (nextFormat f))].Nodup := by
  decide

/-- `getPreferredStreamFormat` (api.ts lines 497-504): an empty container
extension defaults to `m3u8`; otherwise the lower-cased extension selects
`mp4` or `ts`, defaulting to `m3u8`. -/
def getPreferredStreamFormat (containerExtension : String) : StreamFormat :=
  if containerExtension = "" then StreamFormat.m3u8
  else if containerExtension.toLower = "mp4" then StreamFormat.mp4
  else if containerExtension.toLower = "ts" then StreamFormat.ts
  else StreamFormat.m3u8

/-- `getVodStreamingUrl` (part_009 lines 173-175 and api.ts): constructs
`{baseUrl}/movie/{username}/{password}/{streamId}.{format}`. -/
def getVodStreamingUrl (baseUrl username password : String) (streamId : Nat)
    (format : StreamFormat) : String :=
  baseUrl ++ "/movie/" ++ username ++ "/" ++ password ++ "/" ++
    toString streamId ++ "." ++ formatExt format

/-- The `movie_data` object consumed by `getOptimalMovieStreamingUrl`.
`stream_id` is `none` when absent; the JavaScript falsiness test `!streamId`
also rejects the value `0`, so `some 0` counts as unresolvable. -/
structure MovieData where
  stream_id : Option Nat
  container_extension : Option String
  direct_source : Option String

/-- The movie-details object: `movie_data` may be absent. -/
structure MovieDetails where
  movie_data : Option MovieData

/-- `getOptimalMovieStreamingUrl` (api.ts lines 507-528): returns the empty
string when the details or the stream id are falsy; otherwise prefers a
truthy `direct_source`, else constructs a URL from the preferred format. -/
def getOptimalMovieStreamingUrl (baseUrl username password : String) :
    Option MovieDetails → String
  | none => ""
  | some md =>
    let sid := (md.movie_data.bind MovieData.stream_id).getD 0
    if sid = 0 then ""
    else
      let ce := (md.movie_data.bind MovieData.container_extension).getD ""
      let fmt := getPreferredStreamFormat ce
      match md.movie_data.bind MovieData.direct_source with
      | some ds => if ds = "" then getVodStreamingUrl baseUrl username password sid fmt else ds
      | none => getVodStreamingUrl baseUrl username password sid fmt

/-- A constructed VOD streaming URL is never the empty string. -/
theorem getVodStreamingUrl_ne_empty (b u p : String) (sid : Nat)
    (f : StreamFormat) : getVodStreamingUrl b u p sid f ≠ "" := by
  intro h
  have hd := congrArg String.data h
  simp only [getVodStreamingUrl, String.data_append] at hd
  have hlen := congrArg List.length hd
  have h7 : ("/movie/" : String).data.length = 7 := rfl
  simp only [List.length_append, h7] at hlen
  simp at hlen

/-- C7 counterexample: a movie-details object that carries a provider
direct-source URL but no stream id makes the resolver return the empty
string, not the direct URL. -/
theorem resolver_ignores_direct_source :
    getOptimalMovieStreamingUrl "http://h" "u" "p"
        (some ⟨some ⟨none, none, some "http://direct/x.mp4"⟩⟩) = "" ∧
    ("" : String) ≠ "http://direct/x.mp4" := by
  constructor
  · rfl
  · decide

/-- C7 amended: when the item has a resolvable (truthy) stream identifier,
a truthy provider direct-source URL is returned unchanged in preference to
the constructed URL; the resolver is a total function returning the empty
string exactly when the details are absent or the stream identifier is
falsy. -/
theorem resolver_direct_source_precedence :
    (∀ (b u p : String) (md : MovieDetails) (dat : MovieData) (sid : Nat)
        (ds : String),
      md.movie_data = some dat → dat.stream_id = some sid → sid ≠ 0 →
      dat.direct_source = some ds → ds ≠ "" →
      getOptimalMovieStreamingUrl b u p (some md) = ds) ∧
    (∀ (b u p : String) (x : Option MovieDetails),
      getOptimalMovieStreamingUrl b u p x = "" ↔
        (x = none ∨ ∃ md, x = some md ∧
          (md.movie_data.bind MovieData.stream_id).getD 0 = 0)) := by
  constructor
  · intro b u p md dat sid ds hmd hsid hne hds hdne
    simp [getOptimalMovieStreamingUrl, hmd, hsid, hne, hds, hdne]
  · intro b u p x
    cases x with
    | none => simp [getOptimalMovieStreamingUrl]
    | some md =>
      by_cases hsid : (md.movie_data.bind MovieData.stream_id).getD 0 = 0
      · simp [getOptimalMovieStreamingUrl, hsid]
      · simp only [getOptimalMovieStreamingUrl, hsid, if_false]
        constructor
        · intro h
          exfalso
          rcases hds : md.movie_data.bind MovieData.direct_source with _ | ds
          · rw [hds] at h
            exact getVodStreamingUrl_ne_empty _ _ _ _ _ h
          · rw [hds] at h
            by_cases hde : ds = ""
            · subst hde
              simp only [if_pos rfl] at h
              exact getVodStreamingUrl_ne_empty _ _ _ _ _ h
            · simp only [if_neg hde] at h
              exact hde h
        · intro h
          rcases h with h | ⟨md', hmd', h⟩
          · exact absurd h (by simp)
          · rw [Option.some_inj] at hmd'
            rw [hmd'] at hsid
            exact absurd h hsid

/-- Witness for C7 amended at concrete inputs. -/
theorem resolver_direct_source_precedence_witness :
    getOptimalMovieStreamingUrl "http://h" "u" "p"
        (some ⟨some ⟨some 5, some "mp4", some "http://direct/x.mp4"⟩⟩) =
      "http://direct/x.mp4" ∧
    (getOptimalMovieStreamingUrl "http://h" "u" "p" none = "" ↔
      (none = (none : Option MovieDetails) ∨ ∃ md, (none : Option MovieDetails) = some md ∧
        (md.movie_data.bind MovieData.stream_id).getD 0 = 0)) :=
  ⟨resolver_direct_source_precedence.1 "http://h" "u" "p"
      ⟨some ⟨some 5, some "mp4", some "http://direct/x.mp4"⟩⟩
      ⟨some 5, some "mp4", some "http://direct/x.mp4"⟩ 5 "http://direct/x.mp4"
      rfl rfl (by decide) rfl (by decide),
   resolver_direct_source_precedence.2 "http://h" "u" "p" none⟩

/-- State of one playback session in the `VideoPlayer` component (part_000):
the React state variables involved in automatic format-switch retries.
`failed` records that the error was surfaced to the caller via `onError`. -/
structure PlayerState where
  currentFormat : StreamFormat
  playbackAttempt : Nat
  isInRetryFlow : Bool
  isBuffering : Bool
  hasStreamId : Bool
  failed : Bool
  deriving DecidableEq

/-- Automatic events driving the retry logic: a playback error reported by
the media layer (`handleError`), the firing of the 15-second load-timeout
effect, and the delayed callback that ends a retry flow. -/
inductive PlayerEv
  | error
  | timeout
  | retryDone
  deriving DecidableEq

/-- `retryWithDifferentFormat` (part_000 lines 79-133): a re-entrant call
while a retry flow is in progress is a no-op; with a stream id available the
format advances cyclically and the attempt counter increments (the source
increments it in the delayed reload callback; it is modelled at initiation,
which does not change any reachable counter value); without a stream id the
flow ends and the error is surfaced. -/
def retryWithDifferentFormat (s : PlayerState) : PlayerState :=
  if s.isInRetryFlow then s
  else if s.hasStreamId then
    { s with
      isBuffering := true
      isInRetryFlow := true
      currentFormat := nextFormat s.currentFormat
      playbackAttempt := s.playbackAttempt + 1 }
  else
    { s with isBuffering := true, isInRetryFlow := false, failed := true }

/-- One automatic transition of the player: `handleError` (part_000 lines
228-240) retries while `playbackAttempt < 2` and otherwise surfaces the
error; the load-timeout effect (lines 164-178) retries only while buffering
with `playbackAttempt === 0`; `retryDone` is the delayed callback clearing
`isInRetryFlow`. -/
def playerStep (s : PlayerState) : PlayerEv → PlayerState
  | PlayerEv.error =>
    if s.playbackAttempt < 2 then retryWithDifferentFormat s
    else { s with failed := true }
  | PlayerEv.timeout =>
    if s.isBuffering ∧ s.playbackAttempt = 0 then retryWithDifferentFormat s
    else s
  | PlayerEv.retryDone => { s with isInRetryFlow := false }

/-- A playback session: the automatic events folded over the initial
state. -/
def runPlayer (s : PlayerState) (evs : List PlayerEv) : PlayerState :=
  evs.foldl playerStep s

/-- Each automatic transition preserves the attempt bound. -/
theorem playerStep_le (s : PlayerState) (e : PlayerEv)
    (h : s.playbackAttempt ≤ 2) : (playerStep s e).playbackAttempt ≤ 2 := by
  cases e with
  | error =>
    by_cases hlt : s.playbackAttempt < 2
    · simp only [playerStep, if_pos hlt, retryWithDifferentFormat]
      split_ifs <;> first | exact h | (simp; omega)
    · simp only [playerStep, if_neg hlt]
      exact h
  | timeout =>
    by_cases hb : s.isBuffering ∧ s.playbackAttempt = 0
    · simp only [playerStep, if_pos hb, retryWithDifferentFormat]
      split_ifs <;> first | exact h | (simp; omega)
    · simp only [playerStep, if_neg hb]
      exact h
  | retryDone => exact h

/-- C6: Retry bound.  In every playback session driven by automatic events
the attempt counter never exceeds `maxAttempts = 2`, and an error arriving
with the budget exhausted surfaces the error (`failed`), leaving the state
otherwise unchanged — no further retry, no format advance, no increment. -/
theorem player_retry_bound :
    (∀ (s0 : PlayerState) (evs : List PlayerEv),
      s0.playbackAttempt ≤ 2 → (runPlayer s0 evs).playbackAttempt ≤ 2) ∧
    (∀ s : PlayerState, 2 ≤ s.playbackAttempt →
      playerStep s PlayerEv.error = { s with failed := true }) := by
  constructor
  · intro s0 evs
    induction evs generalizing s0 with
    | nil => intro h; simpa [runPlayer] using h
    | cons e evs ih =>
      intro h
      have : runPlayer s0 (e :: evs) = runPlayer (playerStep s0 e) evs := rfl
      rw [this]
      exact ih _ (playerStep_le s0 e h)
  · intro s h
    have hlt : ¬ s.playbackAttempt < 2 := not_lt.mpr h
    simp [playerStep, hlt]

/-- Witness for C6 at a concrete session: three errors with interleaved
retry completions, starting from a fresh session. -/
theorem player_retry_bound_witness :
    (runPlayer ⟨StreamFormat.m3u8, 0, false, true, true, false⟩
        [PlayerEv.error, PlayerEv.retryDone, PlayerEv.error,
          PlayerEv.retryDone, PlayerEv.error]).playbackAttempt ≤ 2 ∧
    playerStep ⟨StreamFormat.ts, 2, false, true, true, false⟩ PlayerEv.error =
      ⟨StreamFormat.ts, 2, false, true, true, true⟩ :=
  ⟨player_retry_bound.1 ⟨StreamFormat.m3u8, 0, false, true, true, false⟩
      [PlayerEv.error, PlayerEv.retryDone, PlayerEv.error,
        PlayerEv.retryDone, PlayerEv.error] (by decide),
   player_retry_bound.2 ⟨StreamFormat.ts, 2, false, true, true, false⟩
     (by decide)⟩

/-- Phase of one of `n` overlapping `fetchWithCache` calls on a single key.
A call that found no fresh entry is `running` with a snapshot of the stale
cached value (used for the fallback in the catch block) and an aborted flag
(its `AbortController`'s signal).  `doneVal` / `doneErr` record the value
returned to that caller, or the propagated failure. -/
inductive CallPhase
  | idle
  | running (stale : Option Nat) (aborted : Bool)
  | doneVal (v : Nat)
  | doneErr
  deriving DecidableEq

/-- Global state of the engine for one key: the persisted cache entry, the
`abortControllers[key]` slot, each call's phase, and the log of cache writes
in commit order. -/
structure EngineState (n : Nat) where
  cache : Option CacheEntry
  registry : Option (Fin n)
  phase : Fin n → CallPhase
  commits : List (Fin n)
  deriving DecidableEq

/-- Scheduler events: `start i` runs call `i`'s synchronous segment up to the
fetch launch (cache lookup, abort of the registered controller, registration,
fetch start); `deliver i ok` settles call `i`'s fetch with success or
failure and runs its continuation (including the `finally` block). -/
inductive EngineEv (n : Nat)
  | start (i : Fin n)
  | deliver (i : Fin n) (ok : Bool)
  deriving DecidableEq

/-- Set the aborted flag of call `j`'s controller (`controller.abort()`). -/
def abortAt (n : Nat) (ph : Fin n → CallPhase) (j : Fin n) : Fin n → CallPhase :=
  Function.update ph j
    (match ph j with
     | CallPhase.running st _ => CallPhase.running st true
     | p => p)

/-- The fetch-launch segment of `fetchWithCache` (part_009 lines 122-139):
abort any registered controller for the key, register call `i`'s controller,
and start its network fetch with the stale snapshot `st`. -/
def launchCall (n : Nat) (s : EngineState n) (i : Fin n) (st : Option Nat) :
    EngineState n :=
  { s with
    phase := Function.update
      (match s.registry with
       | none => s.phase
       | some j => abortAt n s.phase j) i (CallPhase.running st false)
    registry := some i }

/-- One atomic step of the interleaved engine, from part_009 lines 111-155.
`coop = false` models forcible cancellation (an aborted fetch can only settle
by rejecting); `coop = true` models cooperative cancellation, where the
settled success value of an aborted operation is still delivered to the
awaiting continuation.  On success the continuation writes the cache and
returns; on failure it returns the stale snapshot if one existed, else
propagates; either way the `finally` block deletes the registry slot of the
key — whatever controller it currently holds. -/
def stepE {n : Nat} (coop : Bool) (now dur : Nat) (fv : Fin n → Nat)
    (s : EngineState n) : EngineEv n → Option (EngineState n)
  | EngineEv.start i =>
    match s.phase i with
    | CallPhase.idle =>
      match s.cache with
      | some e =>
        if now < e.expiresAt then
          some { s with
            phase := Function.update s.phase i (CallPhase.doneVal e.data) }
        else some (launchCall n s i (some e.data))
      | none => some (launchCall n s i none)
    | _ => none
  | EngineEv.deliver i ok =>
    match s.phase i with
    | CallPhase.running st ab =>
      if ok then
        if ab && !coop then none
        else
          some { s with
            cache := some ⟨fv i, now, now + dur⟩
            commits := s.commits ++ [i]
            registry := none
            phase := Function.update s.phase i (CallPhase.doneVal (fv i)) }
      else
        match st with
        | some d =>
          some { s with
            registry := none
            phase := Function.update s.phase i (CallPhase.doneVal d) }
        | none =>
          some { s with
            registry := none
            phase := Function.update s.phase i CallPhase.doneErr }
    | _ => none

/-- Run a schedule of events, failing on any disabled event. -/
def runE {n : Nat} (coop : Bool) (now dur : Nat) (fv : Fin n → Nat)
    (s : EngineState n) : List (EngineEv n) → Option (EngineState n)
  | [] => some s
  | e :: evs =>
    (stepE coop now dur fv s e).bind (fun s' => runE coop now dur fv s' evs)

/-- Initial state: a given cache content, empty registry, all calls idle. -/
def initE (n : Nat) (c0 : Option CacheEntry) : EngineState n :=
  { cache := c0
    registry := none
    phase := fun _ => CallPhase.idle
    commits := [] }

/-- A call whose network operation is currently in flight: running and not
aborted (under forcible cancellation an aborted operation is terminated). -/
def isLiveFetch : CallPhase → Bool
  | CallPhase.running _ ab => !ab
  | _ => false

/-- Number of network operations in flight. -/
def inFlightCount {n : Nat} (s : EngineState n) : Nat :=
  (List.finRange n).countP (fun i => isLiveFetch (s.phase i))

/-- Fetch values for the three-call counterexample schedule. -/
def fv3 : Fin 3 → Nat := fun i => 100 + i.val

/-- C2 counterexample: three overlapping calls on one key.  Call 1 aborts
call 0; call 0's rejection runs its `finally`, which deletes the registry
slot — currently holding call 1's controller; call 2 then finds no
controller to abort, so calls 1 and 2 are simultaneously in flight, and both
of their results are committed: two cache writes, not one. -/
theorem overlap_two_fetches_in_flight :
    (runE false 0 10 fv3 (initE 3 none)
        [EngineEv.start 0, EngineEv.start 1, EngineEv.deliver 0 false,
          EngineEv.start 2]).map inFlightCount = some 2 ∧
    (runE false 0 10 fv3 (initE 3 none)
        [EngineEv.start 0, EngineEv.start 1, EngineEv.deliver 0 false,
          EngineEv.start 2, EngineEv.deliver 1 true,
          EngineEv.deliver 2 true]).map EngineState.commits =
      some [1, 2] := by
  constructor
  · decide
  · decide

/-- Fetch values for the two-call schedules. -/
def fv2 : Fin 2 → Nat := fun i => 5 + i.val

/-- C5 counterexample: under cooperative cancellation (the spec's own
premise: no forcible termination, late results dropped by a token check) the
code has no generation token, so the superseded call 0 — already aborted
after the two starts — still commits its late success to the cache before
call 1 does: two commits, and the superseded result is written. -/
theorem late_result_committed :
    (runE true 0 10 fv2 (initE 2 none)
        [EngineEv.start 0, EngineEv.start 1]).map
      (fun s => isLiveFetch (s.phase 0)) = some false ∧
    (runE true 0 10 fv2 (initE 2 none)
        [EngineEv.start 0, EngineEv.start 1, EngineEv.deliver 0 true]).map
      EngineState.cache = some (some ⟨5, 0, 10⟩) ∧
    (runE true 0 10 fv2 (initE 2 none)
        [EngineEv.start 0, EngineEv.start 1, EngineEv.deliver 0 true,
          EngineEv.deliver 1 true]).map EngineState.commits = some [0, 1] := by
  refine ⟨?_, ?_, ?_⟩ <;> decide

/-- The phase a running call reaches when its fetch settles by failure: the
stale snapshot value if one existed, else the propagated error. -/
def stalePhase : Option Nat → CallPhase
  | some d => CallPhase.doneVal d
  | none => CallPhase.doneErr

/-- Invariant of the two-call overlap scenario under forcible cancellation,
for every state reachable after `start 0, start 1`: call 0 is aborted (or has
settled on its fallback), call 1 is in flight (or has settled), the commit
log is empty or exactly call 1's single write, and call 1 still being in
flight forces an empty log. -/
def Inv2 (c0 : Option CacheEntry) (now dur : Nat) (fv : Fin 2 → Nat)
    (s : EngineState 2) : Prop :=
  (s.phase 0 = CallPhase.running (c0.map CacheEntry.data) true ∨
    s.phase 0 = stalePhase (c0.map CacheEntry.data)) ∧
  (s.phase 1 = CallPhase.running (c0.map CacheEntry.data) false ∨
    s.phase 1 = CallPhase.doneVal (fv 1) ∨
    s.phase 1 = stalePhase (c0.map CacheEntry.data)) ∧
  ((s.commits = [] ∧ s.cache = c0) ∨
    (s.commits = [1] ∧ s.cache = some ⟨fv 1, now, now + dur⟩)) ∧
  (s.phase 1 = CallPhase.running (c0.map CacheEntry.data) false →
    s.commits = [])

/-- Updating index 0 of a two-element family does not change index 1. -/
theorem update_zero_at_one (ph : Fin 2 → CallPhase) (x : CallPhase) :
    Function.update ph 0 x 1 = ph 1 :=
  Function.update_noteq (by decide) x ph

/-- Updating index 1 of a two-element family does not change index 0. -/
theorem update_one_at_zero (ph : Fin 2 → CallPhase) (x : CallPhase) :
    Function.update ph 1 x 0 = ph 0 :=
  Function.update_noteq (by decide) x ph

/-- Any element of `Fin 2` is `0` or `1`. -/
theorem fin2_cases : ∀ j : Fin 2, j = 0 ∨ j = 1 := by decide

/-- Each enabled step preserves the overlap invariant. -/
theorem stepE_preserves_Inv2 (c0 : Option CacheEntry) (now dur : Nat)
    (fv : Fin 2 → Nat) (s s' : EngineState 2) (e : EngineEv 2)
    (hs : Inv2 c0 now dur fv s)
    (hstep : stepE false now dur fv s e = some s') :
    Inv2 c0 now dur fv s' := by
  obtain ⟨h0, h1, hc, hr⟩ := hs
  cases e with
  | start i =>
    rcases fin2_cases i with rfl | rfl
    · rcases h0 with h0 | h0 <;>
        cases hmap : Option.map CacheEntry.data c0 <;>
          simp [stepE, h0, hmap, stalePhase] at hstep
    · rcases h1 with h1 | h1 | h1 <;>
        cases hmap : Option.map CacheEntry.data c0 <;>
          simp [stepE, h1, hmap, stalePhase] at hstep
  | deliver i ok =>
    rcases fin2_cases i with rfl | rfl
    · rcases h0 with h0 | h0
      · cases ok with
        | true => simp [stepE, h0] at hstep
        | false =>
          cases hmap : Option.map CacheEntry.data c0 with
          | none =>
            rw [hmap] at h0
            simp only [stepE, h0, Bool.false_eq_true, if_false,
              Option.some.injEq] at hstep
            subst hstep
            refine ⟨Or.inr ?_, h1, hc, hr⟩
            rw [hmap]
            rfl
          | some d =>
            rw [hmap] at h0
            simp only [stepE, h0, Bool.false_eq_true, if_false,
              Option.some.injEq] at hstep
            subst hstep
            refine ⟨Or.inr ?_, h1, hc, hr⟩
            rw [hmap]
            rfl
      · cases hmap : Option.map CacheEntry.data c0 <;>
          rw [hmap] at h0 <;>
            simp [stepE, h0, stalePhase] at hstep
    · rcases h1 with h1 | h1 | h1
      · have hcomm : s.commits = [] := hr h1
        cases ok with
        | true =>
          simp only [stepE, h1, Bool.and_self, Bool.not_false, Bool.and_true,
            Bool.false_eq_true, if_false, if_true, Option.some.injEq] at hstep
          subst hstep
          refine ⟨h0, Or.inr (Or.inl ?_), Or.inr ⟨?_, rfl⟩, ?_⟩
          · rfl
          · rw [hcomm]
            rfl
          · intro hcontra
            simp [Function.update_same] at hcontra
        | false =>
          cases hmap : Option.map CacheEntry.data c0 with
          | none =>
            rw [hmap] at h1
            simp only [stepE, h1, Bool.false_eq_true, if_false,
              Option.some.injEq] at hstep
            subst hstep
            refine ⟨h0, Or.inr (Or.inr ?_), hc, ?_⟩
            · rw [hmap]
              rfl
            · intro hcontra
              simp [Function.update_same, hmap] at hcontra
          | some d =>
            rw [hmap] at h1
            simp only [stepE, h1, Bool.false_eq_true, if_false,
              Option.some.injEq] at hstep
            subst hstep
            refine ⟨h0, Or.inr (Or.inr ?_), hc, ?_⟩
            · rw [hmap]
              rfl
            · intro hcontra
              simp [Function.update_same, hmap] at hcontra
      · simp [stepE, h1] at hstep
      · cases hmap : Option.map CacheEntry.data c0 <;>
          rw [hmap] at h1 <;>
            simp [stepE, h1, stalePhase] at hstep

/-- Running any enabled schedule preserves the overlap invariant. -/
theorem runE_preserves_Inv2 (c0 : Option CacheEntry) (now dur : Nat)
    (fv : Fin 2 → Nat) :
    ∀ (evs : List (EngineEv 2)) (s s' : EngineState 2),
      Inv2 c0 now dur fv s →
      runE false now dur fv s evs = some s' → Inv2 c0 now dur fv s' := by
  intro evs
  induction evs with
  | nil =>
    intro s s' hs h
    rw [runE, Option.some_inj] at h
    rw [← h]
    exact hs
  | cons e evs ih =>
    intro s s' hs h
    rw [runE] at h
    cases hm : stepE false now dur fv s e with
    | none =>
      rw [hm] at h
      simp at h
    | some s1 =>
      rw [hm] at h
      simp only [Option.some_bind] at h
      exact ih s1 s' (stepE_preserves_Inv2 c0 now dur fv s s1 e hs hm) h

/-- After the two starts of the overlap scenario (on a cache with no fresh
entry), every reachable state satisfies the overlap invariant. -/
theorem starts_reach_Inv2 (c0 : Option CacheEntry) (now dur : Nat)
    (fv : Fin 2 → Nat) (rest : List (EngineEv 2)) (s : EngineState 2)
    (hstale : ∀ e, c0 = some e → e.expiresAt ≤ now)
    (hrun : runE false now dur fv (initE 2 c0)
      (EngineEv.start 0 :: EngineEv.start 1 :: rest) = some s) :
    Inv2 c0 now dur fv s := by
  have h0 : stepE false now dur fv (initE 2 c0) (EngineEv.start 0) =
      some (launchCall 2 (initE 2 c0) 0 (Option.map CacheEntry.data c0)) := by
    cases hc0 : c0 with
    | none => rfl
    | some e =>
      have hne : ¬ now < e.expiresAt := not_lt.mpr (hstale e hc0)
      simp [stepE, initE, hne]
  have h1 : stepE false now dur fv
      (launchCall 2 (initE 2 c0) 0 (Option.map CacheEntry.data c0))
      (EngineEv.start 1) =
      some (launchCall 2
        (launchCall 2 (initE 2 c0) 0 (Option.map CacheEntry.data c0)) 1
        (Option.map CacheEntry.data c0)) := by
    cases hc0 : c0 with
    | none => rfl
    | some e =>
      have hne : ¬ now < e.expiresAt := not_lt.mpr (hstale e hc0)
      simp [stepE, initE, launchCall, hne]
  have hinv : Inv2 c0 now dur fv
      (launchCall 2
        (launchCall 2 (initE 2 c0) 0 (Option.map CacheEntry.data c0)) 1
        (Option.map CacheEntry.data c0)) :=
    ⟨Or.inl rfl, Or.inl rfl, Or.inl ⟨rfl, rfl⟩, fun _ => rfl⟩
  rw [runE, h0] at hrun
  simp only [Option.some_bind] at hrun
  rw [runE, h1] at hrun
  simp only [Option.some_bind] at hrun
  exact runE_preserves_Inv2 c0 now dur fv rest _ s hinv hrun

/-- Running a concatenated schedule is running the two parts in order. -/
theorem runE_append {n : Nat} (coop : Bool) (now dur : Nat) (fv : Fin n → Nat)
    (l1 l2 : List (EngineEv n)) (s : EngineState n) :
    runE coop now dur fv s (l1 ++ l2) =
      (runE coop now dur fv s l1).bind
        (fun s1 => runE coop now dur fv s1 l2) := by
  induction l1 generalizing s with
  | nil => simp [runE]
  | cons e l1 ih =>
    rw [List.cons_append, runE, runE]
    cases hm : stepE coop now dur fv s e with
    | none => simp
    | some s1 => simp [ih]

/-- A single step only ever appends to the commit log. -/
theorem stepE_commits_extend {n : Nat} (coop : Bool) (now dur : Nat)
    (fv : Fin n → Nat) (s s' : EngineState n) (e : EngineEv n)
    (h : stepE coop now dur fv s e = some s') :
    ∃ t, s'.commits = s.commits ++ t := by
  cases e with
  | start i =>
    cases hp : s.phase i with
    | idle =>
      cases hcache : s.cache with
      | none =>
        simp only [stepE, hp, hcache, Option.some.injEq] at h
        exact ⟨[], by rw [← h]; simp [launchCall]⟩
      | some ce =>
        by_cases hf : now < ce.expiresAt
        · simp only [stepE, hp, hcache, if_pos hf, Option.some.injEq] at h
          exact ⟨[], by rw [← h]; simp⟩
        · simp only [stepE, hp, hcache, if_neg hf, Option.some.injEq] at h
          exact ⟨[], by rw [← h]; simp [launchCall]⟩
    | running st ab => simp [stepE, hp] at h
    | doneVal v => simp [stepE, hp] at h
    | doneErr => simp [stepE, hp] at h
  | deliver i ok =>
    cases hp : s.phase i with
    | running st ab =>
      cases ok with
      | true =>
        by_cases hab : (ab && !coop) = true
        · simp [stepE, hp, hab] at h
        · simp only [stepE, hp, hab, Bool.false_eq_true, if_false, if_true,
            Option.some.injEq] at h
          exact ⟨[i], by rw [← h]⟩
      | false =>
        cases st with
        | none =>
          simp only [stepE, hp, Bool.false_eq_true, if_false,
            Option.some.injEq] at h
          exact ⟨[], by rw [← h]; simp⟩
        | some d =>
          simp only [stepE, hp, Bool.false_eq_true, if_false,
            Option.some.injEq] at h
          exact ⟨[], by rw [← h]; simp⟩
    | idle => simp [stepE, hp] at h
    | doneVal v => simp [stepE, hp] at h
    | doneErr => simp [stepE, hp] at h

/-- Running any schedule only ever appends to the commit log. -/
theorem runE_commits_extend {n : Nat} (coop : Bool) (now dur : Nat)
    (fv : Fin n → Nat) :
    ∀ (l : List (EngineEv n)) (s s' : EngineState n),
      runE coop now dur fv s l = some s' →
      ∃ t, s'.commits = s.commits ++ t := by
  intro l
  induction l with
  | nil =>
    intro s s' h
    rw [runE, Option.some_inj] at h
    exact ⟨[], by rw [← h]; simp⟩
  | cons e l ih =>
    intro s s' h
    rw [runE] at h
    cases hm : stepE coop now dur fv s e with
    | none =>
      rw [hm] at h
      simp at h
    | some s1 =>
      rw [hm] at h
      simp only [Option.some_bind] at h
      obtain ⟨t1, ht1⟩ := stepE_commits_extend coop now dur fv s s1 e hm
      obtain ⟨t2, ht2⟩ := ih s1 s' h
      exact ⟨t1 ++ t2, by rw [ht2, ht1, List.append_assoc]⟩

/-- C2 amended: for two overlapping calls on one key (the second starting
while the first's fetch is still unsettled, on a cache with no fresh entry)
and with aborts forcibly rejecting the unsettled fetch, every reachable state
has at most one network operation in flight, at most one committed cache
write, never the first call's; and once the superseding call's success is
delivered, the commit log is exactly its single write.  (With three
overlapping calls, or with an already-settled superseded fetch, this fails —
see the counterexample.) -/
theorem fetchWithCache_supersede (c0 : Option CacheEntry) (now dur : Nat)
    (fv : Fin 2 → Nat) (rest : List (EngineEv 2)) (s : EngineState 2)
    (hstale : ∀ e, c0 = some e → e.expiresAt ≤ now)
    (hrun : runE false now dur fv (initE 2 c0)
      (EngineEv.start 0 :: EngineEv.start 1 :: rest) = some s) :
    inFlightCount s ≤ 1 ∧ (s.commits = [] ∨ s.commits = [1]) ∧
      (EngineEv.deliver 1 true ∈ rest → s.commits = [1]) := by
  obtain ⟨h0, h1, hc, hr⟩ := starts_reach_Inv2 c0 now dur fv rest s hstale hrun
  refine ⟨?_, ?_, ?_⟩
  · have hfr : List.finRange 2 = [0, 1] := by decide
    have e0 : isLiveFetch (s.phase 0) = false := by
      rcases h0 with h0 | h0
      · rw [h0]
        rfl
      · rw [h0]
        cases hmap : Option.map CacheEntry.data c0 <;> rfl
    rw [inFlightCount, hfr, List.countP_cons, List.countP_cons,
      List.countP_nil, e0]
    cases h1l : isLiveFetch (s.phase 1) <;> simp
  · rcases hc with ⟨hcc, _⟩ | ⟨hcc, _⟩
    · exact Or.inl hcc
    · exact Or.inr hcc
  · intro hmem
    obtain ⟨l1, l2, hsplit⟩ := List.append_of_mem hmem
    subst hsplit
    have hassoc :
        EngineEv.start 0 :: EngineEv.start 1 ::
            (l1 ++ EngineEv.deliver 1 true :: l2) =
          (EngineEv.start 0 :: EngineEv.start 1 :: l1) ++
            (EngineEv.deliver 1 true :: l2) := by
      simp
    rw [hassoc, runE_append] at hrun
    cases hmid : runE false now dur fv (initE 2 c0)
        (EngineEv.start 0 :: EngineEv.start 1 :: l1) with
    | none =>
      rw [hmid] at hrun
      simp at hrun
    | some sMid =>
      rw [hmid] at hrun
      simp only [Option.some_bind] at hrun
      obtain ⟨m0, m1, mc, mr⟩ :=
        starts_reach_Inv2 c0 now dur fv l1 sMid hstale hmid
      rw [runE] at hrun
      rcases m1 with m1 | m1 | m1
      · have hcm : sMid.commits = [] := mr m1
        have hstepc : stepE false now dur fv sMid (EngineEv.deliver 1 true) =
            some { sMid with
              cache := some ⟨fv 1, now, now + dur⟩
              commits := sMid.commits ++ [1]
              registry := none
              phase := Function.update sMid.phase 1
                (CallPhase.doneVal (fv 1)) } := by
          simp [stepE, m1]
        rw [hstepc] at hrun
        simp only [Option.some_bind] at hrun
        obtain ⟨t, ht⟩ := runE_commits_extend false now dur fv l2 _ s hrun
        rcases hc with ⟨hcc, _⟩ | ⟨hcc, _⟩
        · exfalso
          rw [hcc, hcm] at ht
          simp at ht
        · exact hcc
      · simp [stepE, m1] at hrun
      · cases hmap : Option.map CacheEntry.data c0 <;>
          rw [hmap] at m1 <;> simp [stepE, m1, stalePhase] at hrun

/-- The schedule used by the C2 amended witness: the superseded call's abort
rejection, then the superseding call's successful delivery. -/
def restW2 : List (EngineEv 2) :=
  [EngineEv.deliver 0 false, EngineEv.deliver 1 true]

/-- The final state of the C2 witness schedule. -/
def sW2 : EngineState 2 :=
  (runE false 0 5 fv2 (initE 2 none)
    (EngineEv.start 0 :: EngineEv.start 1 :: restW2)).getD (initE 2 none)

/-- Witness for C2 amended at a concrete schedule. -/
theorem fetchWithCache_supersede_witness :
    inFlightCount sW2 ≤ 1 ∧ (sW2.commits = [] ∨ sW2.commits = [1]) ∧
      (EngineEv.deliver 1 true ∈ restW2 → sW2.commits = [1]) :=
  fetchWithCache_supersede none 0 5 fv2 restW2 sW2
    (by intro e h; cases h) rfl

/-- C5 amended: there is no generation token; a superseded fetch's result is
discarded exactly because forcible abortion settles it by rejection.  Under
that semantics, in the two-call overlap scenario the superseded call 0 never
commits to the cache, and its outcome is its abort fallback (the stale
snapshot, or a propagated error) — never its fetched value.  Under the
spec's cooperative-cancellation premise the discard fails — see the
counterexample. -/
theorem superseded_fetch_never_commits (c0 : Option CacheEntry) (now dur : Nat)
    (fv : Fin 2 → Nat) (rest : List (EngineEv 2)) (s : EngineState 2)
    (hstale : ∀ e, c0 = some e → e.expiresAt ≤ now)
    (hrun : runE false now dur fv (initE 2 c0)
      (EngineEv.start 0 :: EngineEv.start 1 :: rest) = some s) :
    (0 : Fin 2) ∉ s.commits ∧
      (s.phase 0 = CallPhase.running (Option.map CacheEntry.data c0) true ∨
        s.phase 0 = stalePhase (Option.map CacheEntry.data c0)) := by
  obtain ⟨h0, h1, hc, hr⟩ := starts_reach_Inv2 c0 now dur fv rest s hstale hrun
  refine ⟨?_, h0⟩
  rcases hc with ⟨hcc, _⟩ | ⟨hcc, _⟩ <;> rw [hcc] <;> decide

/-- The schedule used by the C5 amended witness: the superseding call's
success, then the superseded call's abort rejection. -/
def restW5 : List (EngineEv 2) :=
  [EngineEv.deliver 1 true, EngineEv.deliver 0 false]

/-- The final state of the C5 witness schedule. -/
def sW5 : EngineState 2 :=
  (runE false 0 5 fv2 (initE 2 none)
    (EngineEv.start 0 :: EngineEv.start 1 :: restW5)).getD (initE 2 none)

/-- Witness for C5 amended at a concrete schedule. -/
theorem superseded_fetch_never_commits_witness :
    (0 : Fin 2) ∉ sW5.commits ∧
      (sW5.phase 0 =
          CallPhase.running (Option.map CacheEntry.data none) true ∨
        sW5.phase 0 = stalePhase (Option.map CacheEntry.data none)) :=
  superseded_fetch_never_commits none 0 5 fv2 restW5 sW5
    (by intro e h; cases h) rfl

end PlayerToo
